import Mathlib

/-!
Verification of the MBP481 UART fuzzing toolkit against its specification.

Bytes are modelled as `Nat` (always < 256 where the Python type `bytes`
guarantees it); byte strings as `List Nat`; decoded text as `List Char` or
`String`.  Python's fallible `int.to_bytes` is modelled with `Option`;
`sys.exit` aborts are modelled with `Except Unit`.  Wall-clock deadlines on
read loops are modelled by a fuel parameter bounding the number of reads.
-/

set_option maxRecDepth 8000

namespace MBP481

/-- Byte content of a string literal (all source literals are ASCII). -/
def str2bytes (s : String) : List Nat := s.data.map Char.toNat

/-! ### CRC-16/MODBUS (src/fuzzer/ate_command_sender.py, `crc16_modbus`) -/

/-- One shift round of the CRC loop body:
`if crc & 0x0001: crc = (crc >> 1) ^ 0xA001 else: crc >>= 1`. -/
def crcRound (crc : Nat) : Nat :=
  if crc &&& 0x0001 = 1 then (crc >>> 1) ^^^ 0xA001 else crc >>> 1

/-- Per-byte step: `crc ^= byte` followed by eight shift rounds. -/
def crcByte (crc b : Nat) : Nat := crcRound^[8] (crc ^^^ b)

/-- `crc16_modbus` from ate_command_sender.py: register starts at 0xFFFF,
each input byte is folded in with `crcByte`. -/
def crc16_modbus (data : List Nat) : Nat := data.foldl crcByte 0xFFFF

/-- `crc16_ibm` from mbp481_crc_discovery_fuzzer.py: the same loop written
with conditional expressions, followed by a final `& 0xFFFF` mask. -/
def crc16_ibm (data : List Nat) : Nat := (data.foldl crcByte 0xFFFF) &&& 0xFFFF

/-- Modelled from the spec: CRC-16/MODBUS described in the spec's own words
(polynomial 0xA001, initial register 0xFFFF, each input byte XORed into the
low byte of the register, 8 right-shifts per byte, each shift conditionally
XORed with the polynomial when the shifted-out bit is 1).  Written with
`% 2` / division to state the shifted-out-bit condition independently of the
source's bitwise operators; `b % 256` expresses that only the byte's low
eight bits enter the register. -/
def crcSpec (data : List Nat) : Nat :=
  data.foldl
    (fun r b =>
      (fun c => if c % 2 = 1 then c / 2 ^^^ 0xA001 else c / 2)^[8] (r ^^^ b % 256))
    0xFFFF

/-! ### Frame builders -/

/-- Python `n.to_bytes(2, order)`: two bytes, `none` models the
`OverflowError` raised when `n` does not fit. -/
def toBytes2 (n : Nat) (big : Bool) : Option (List Nat) :=
  if n < 65536 then
    some (if big then [n / 256, n % 256] else [n % 256, n / 256])
  else none

/-- `build_frame` from ate_command_sender.py (opcode 0x0D family gets a
big-endian length, a CRC-16/MODBUS over opcode ++ length ++ payload appended
little-endian, and a trailing CR; other opcodes get the two-byte preamble,
little-endian length, no checksum, no terminator). -/
def build_frame (op : Nat) (payload : List Nat) : Option (List Nat) :=
  if op = 0x0D then
    match toBytes2 payload.length true with
    | none => none
    | some lenB =>
      let dataForCrc := op :: (lenB ++ payload)
      match toBytes2 (crc16_modbus dataForCrc) false with
      | none => none
      | some crcB => some (0x55 :: (dataForCrc ++ crcB ++ [0x0D]))
  else
    match toBytes2 payload.length false with
    | none => none
    | some lenB => some (0x55 :: 0xAA :: op :: (lenB ++ payload))

/-- `build_frame` from automated_suite.py (same layout but no checksum:
`pre + op + len + payload`, plus a trailing CR only for opcode 0x0D). -/
def build_frame_suite (op : Nat) (payload : List Nat) : Option (List Nat) :=
  match toBytes2 payload.length (op = 0x0D) with
  | none => none
  | some lenB =>
    if op = 0x0D then some (0x55 :: op :: (lenB ++ payload ++ [0x0D]))
    else some (0x55 :: 0xAA :: op :: (lenB ++ payload))

/-! ### CRC bound lemmas -/

theorem crcRound_lt {c : Nat} (h : c < 65536) : crcRound c < 65536 := by
  unfold crcRound
  have hdiv : c >>> 1 < 65536 := by
    simpa [Nat.shiftRight_one] using Nat.lt_of_le_of_lt (Nat.div_le_self c 2) h
  split
  · have hx : (65536 : Nat) = 2 ^ 16 := by norm_num
    refine Nat.xor_lt_two_pow (n := 16) ?_ ?_
    · simpa [← hx] using hdiv
    · norm_num
  · exact hdiv

theorem crcByte_lt {c b : Nat} (hc : c < 65536) (hb : b < 256) :
    crcByte c b < 65536 := by
  have hx : c ^^^ b < 65536 := by
    have hx16 : (65536 : Nat) = 2 ^ 16 := by norm_num
    refine Nat.xor_lt_two_pow (n := 16) ?_ ?_
    · simpa [← hx16] using hc
    · exact lt_of_lt_of_le hb (by norm_num)
  unfold crcByte
  have : ∀ k x, x < 65536 → crcRound^[k] x < 65536 := by
    intro k
    induction k with
    | zero => intro x hx; simpa using hx
    | succ n ih =>
      intro x hx
      rw [Function.iterate_succ_apply]
      exact ih _ (crcRound_lt hx)
  exact this 8 _ hx

theorem crc16_modbus_lt (data : List Nat) (h : ∀ b ∈ data, b < 256) :
    crc16_modbus data < 65536 := by
  unfold crc16_modbus
  have main : ∀ (l : List Nat), (∀ b ∈ l, b < 256) → ∀ c, c < 65536 →
      l.foldl crcByte c < 65536 := by
    intro l
    induction l with
    | nil => intro _ c hc; simpa using hc
    | cons x xs ih =>
      intro hl c hc
      simp only [List.foldl_cons]
      exact ih (fun b hb => hl b (List.mem_cons_of_mem x hb)) _
        (crcByte_lt hc (hl x (List.mem_cons_self x xs)))
  exact main data h 0xFFFF (by norm_num)

theorem shiftRight1_eq_div_two (m : Nat) : m >>> 1 = m / 2 := by
  simpa using Nat.shiftRight_eq_div_pow m 1

theorem crcRound_eq_spec :
    crcRound = fun c => if c % 2 = 1 then c / 2 ^^^ 0xA001 else c / 2 := by
  funext c
  simp [crcRound, Nat.and_one_is_mod, shiftRight1_eq_div_two]

/-- Claim C2: the standalone checksum function implements CRC-16/MODBUS —
for every byte sequence it agrees with the algorithm as worded in the spec
(register starts at 0xFFFF, each byte XORed into the low byte, 8 right
shifts per byte with a conditional 0xA001 XOR on a shifted-out 1 bit); the
discovery fuzzer's `crc16_ibm` variant computes the same value; and on the
empty byte sequence the result is 0xFFFF. -/
theorem checksum_is_crc16_modbus :
    (∀ data : List Nat, (∀ b ∈ data, b < 256) →
        crc16_modbus data = crcSpec data ∧ crc16_ibm data = crc16_modbus data)
    ∧ crc16_modbus [] = 0xFFFF := by
  constructor
  · intro data hdata
    constructor
    · unfold crc16_modbus crcSpec
      refine List.foldl_ext _ _ _ ?_
      intro a b hb
      have hlt : b % 256 = b := Nat.mod_eq_of_lt (hdata b hb)
      rw [crcByte, crcRound_eq_spec, hlt]
    · unfold crc16_ibm crc16_modbus
      have hlt : data.foldl crcByte 0xFFFF < 65536 := crc16_modbus_lt data hdata
      have h2 : (65535 : Nat) = 2 ^ 16 - 1 := by norm_num
      calc data.foldl crcByte 0xFFFF &&& 65535
          = data.foldl crcByte 0xFFFF &&& 2 ^ 16 - 1 := by rw [h2]
        _ = data.foldl crcByte 0xFFFF :=
            Nat.and_pow_two_sub_one_of_lt_two_pow (by simpa using hlt)
  · rfl

theorem checksum_is_crc16_modbus_witness :
    ((∀ b ∈ [0x31, 0x32, 0x33], b < 256) ∧
      crc16_modbus [0x31, 0x32, 0x33] = crcSpec [0x31, 0x32, 0x33] ∧
      crc16_ibm [0x31, 0x32, 0x33] = crc16_modbus [0x31, 0x32, 0x33]) ∧
    crc16_modbus [] = 0xFFFF :=
  ⟨⟨by decide, checksum_is_crc16_modbus.1 [0x31, 0x32, 0x33] (by decide)⟩,
    checksum_is_crc16_modbus.2⟩

theorem build_frame_0D_some (payload : List Nat) (hp : ∀ b ∈ payload, b < 256)
    (h : payload.length ≤ 65535) :
    build_frame 0x0D payload =
      some (0x55 :: 0x0D :: payload.length / 256 :: payload.length % 256 ::
        (payload ++
          [crc16_modbus (0x0D :: payload.length / 256 ::
              payload.length % 256 :: payload) % 256,
           crc16_modbus (0x0D :: payload.length / 256 ::
              payload.length % 256 :: payload) / 256,
           0x0D])) := by
  have hlen : payload.length < 65536 := Nat.lt_succ_of_le h
  have hcrc : crc16_modbus (0x0D :: payload.length / 256 ::
      payload.length % 256 :: payload) < 65536 := by
    refine crc16_modbus_lt _ ?_
    intro b hb
    simp only [List.mem_cons] at hb
    rcases hb with rfl | rfl | rfl | hb
    · norm_num
    · omega
    · omega
    · exact hp b hb
  simp [build_frame, toBytes2, hlen, hcrc]

/-- Claim C1: for every payload of at most 65535 bytes, the checksummed
builder for opcode 0x0D produces exactly
preamble 0x55, opcode, 2-byte big-endian length, payload, CRC-16/MODBUS over
opcode ++ length ++ payload appended little-endian, terminator 0x0D; the
frame length is 1 + 1 + 2 + len + 2 + 1. -/
theorem frame_0D_layout (payload : List Nat) (hp : ∀ b ∈ payload, b < 256)
    (h : payload.length ≤ 65535) :
    ∃ F, build_frame 0x0D payload = some F ∧
      F = 0x55 :: 0x0D :: payload.length / 256 :: payload.length % 256 ::
        (payload ++
          [crc16_modbus (0x0D :: payload.length / 256 ::
              payload.length % 256 :: payload) % 256,
           crc16_modbus (0x0D :: payload.length / 256 ::
              payload.length % 256 :: payload) / 256,
           0x0D]) ∧
      F.length = 1 + 1 + 2 + payload.length + 2 + 1 := by
  refine ⟨_, build_frame_0D_some payload hp h, rfl, ?_⟩
  simp
  omega

theorem frame_0D_layout_witness :
    (∀ b ∈ [0x00, 0x41, 0x01], b < 256) ∧ ([0x00, 0x41, 0x01] : List Nat).length ≤ 65535 ∧
    ∃ F, build_frame 0x0D [0x00, 0x41, 0x01] = some F ∧
      F = 0x55 :: 0x0D :: 3 / 256 :: 3 % 256 ::
        ([0x00, 0x41, 0x01] ++
          [crc16_modbus (0x0D :: 3 / 256 :: 3 % 256 :: [0x00, 0x41, 0x01]) % 256,
           crc16_modbus (0x0D :: 3 / 256 :: 3 % 256 :: [0x00, 0x41, 0x01]) / 256,
           0x0D]) ∧
      F.length = 1 + 1 + 2 + 3 + 2 + 1 :=
  ⟨by decide, by norm_num, frame_0D_layout [0x00, 0x41, 0x01] (by decide) (by norm_num)⟩

/-- Claim C9: frame building succeeds for every payload of length at most
65535 and fails with the 2-byte overflow (modelled as `none`) for every
longer payload, in both builder variants. -/
theorem frame_length_overflow (op : Nat) (payload : List Nat)
    (hp : ∀ b ∈ payload, b < 256) :
    (payload.length ≤ 65535 →
       (build_frame op payload).isSome ∧ (build_frame_suite op payload).isSome)
    ∧ (65535 < payload.length →
       build_frame op payload = none ∧ build_frame_suite op payload = none) := by
  constructor
  · intro h
    have hlen : payload.length < 65536 := Nat.lt_succ_of_le h
    constructor
    · by_cases hop : op = 0x0D
      · subst hop
        rw [build_frame_0D_some payload hp h]
        rfl
      · simp [build_frame, hop, toBytes2, hlen]
    · by_cases hop : op = 0x0D <;>
        simp [build_frame_suite, hop, toBytes2, hlen]
  · intro h
    have hlen : ¬ payload.length < 65536 := by omega
    constructor
    · by_cases hop : op = 0x0D <;> simp [build_frame, hop, toBytes2, hlen]
    · by_cases hop : op = 0x0D <;> simp [build_frame_suite, hop, toBytes2, hlen]

theorem frame_length_overflow_witness :
    ((build_frame 0x0D [] ).isSome ∧ (build_frame_suite 0x0D []).isSome)
    ∧ (build_frame 0x0D (List.replicate 65536 0) = none ∧
       build_frame_suite 0x0D (List.replicate 65536 0) = none) :=
  ⟨(frame_length_overflow 0x0D [] (by simp)).1 (by norm_num),
   (frame_length_overflow 0x0D (List.replicate 65536 0)
      (fun b hb => by rw [List.eq_of_mem_replicate hb]; norm_num)).2
      (by rw [List.length_replicate]; norm_num)⟩

/-! ### Response classifier
(src/fuzzer/superfuzzer_fixed_gemini2.py `fuzz_opcode_0D_2_bytes`,
src/fuzzer/automated_suite.py `run_test`) -/

/-- ASCII whitespace removed by Python `bytes.strip()`. -/
def isWS (b : Nat) : Bool :=
  b = 32 || b = 9 || b = 10 || b = 13 || b = 11 || b = 12

/-- Python `bytes.strip()`: drop ASCII whitespace from both ends. -/
def stripBytes (r : List Nat) : List Nat :=
  ((r.dropWhile isWS).reverse.dropWhile isWS).reverse

/-- Python's `needle in hay` on byte strings: substring containment. -/
def containsSeq {α : Type} [BEq α] (needle : List α) : List α → Bool
  | [] => needle.isEmpty
  | a :: rest => needle.isPrefixOf (a :: rest) || containsSeq needle rest

theorem containsSeq_true_iff {α : Type} [BEq α] [LawfulBEq α]
    (needle hay : List α) : containsSeq needle hay = true ↔ needle <:+: hay := by
  induction hay with
  | nil => simp [containsSeq, List.isEmpty_iff]
  | cons a rest ih =>
    simp [containsSeq, ih, List.infix_cons_iff]

theorem containsSeq_append_left {α : Type} [BEq α] [LawfulBEq α]
    {needle x : List α} (y : List α) (h : containsSeq needle x = true) :
    containsSeq needle (x ++ y) = true := by
  rw [containsSeq_true_iff] at h ⊢
  exact h.trans (List.prefix_append x y).isInfix

def PREAMBLE_ERROR_LIT : List Nat := str2bytes "Preamble Error"

def CMD_ERROR_LIT : List Nat := str2bytes "CMD Error"

inductive Classification where
  | SILENCE
  | PROTOCOL_ERROR
  | COMMAND_ERROR
  | ACCEPTED
deriving DecidableEq

/-- The response classifier: the branch structure of
`fuzz_opcode_0D_2_bytes` (empty echo falls through as SILENCE; the
stripped text is tested for "Preamble Error" first, then "CMD Error";
anything else is the SUCCESS/ACCEPTED case). -/
def classify (resp : List Nat) : Classification :=
  if resp = [] then .SILENCE
  else if containsSeq PREAMBLE_ERROR_LIT (stripBytes resp) then .PROTOCOL_ERROR
  else if containsSeq CMD_ERROR_LIT (stripBytes resp) then .COMMAND_ERROR
  else .ACCEPTED

/-- `run_test` from automated_suite.py reduced to its success predicate:
the echo is non-empty and its stripped text contains neither
"Preamble Error" nor "CMD Error". -/
def run_test_success (echo : List Nat) : Bool :=
  !echo.isEmpty
    && !(containsSeq PREAMBLE_ERROR_LIT (stripBytes echo))
    && !(containsSeq CMD_ERROR_LIT (stripBytes echo))

theorem run_test_success_iff_accepted (r : List Nat) :
    run_test_success r = true ↔ classify r = .ACCEPTED := by
  unfold run_test_success classify
  by_cases h0 : r = []
  · subst h0; simp
  · by_cases h1 : containsSeq PREAMBLE_ERROR_LIT (stripBytes r)
    · simp [h0, h1]
    · by_cases h2 : containsSeq CMD_ERROR_LIT (stripBytes r) <;>
        simp [h0, h1, h2, List.isEmpty_iff]

/-- The classifier described by claim C4's own words: a non-empty response
containing a protocol-error literal AND NO command-error literal is
PROTOCOL_ERROR; otherwise a non-empty response containing a command-error
literal is COMMAND_ERROR. -/
def classifyClaimC4 (resp : List Nat) : Classification :=
  if resp = [] then .SILENCE
  else if containsSeq PREAMBLE_ERROR_LIT (stripBytes resp)
          && !(containsSeq CMD_ERROR_LIT (stripBytes resp)) then .PROTOCOL_ERROR
  else if containsSeq CMD_ERROR_LIT (stripBytes resp) then .COMMAND_ERROR
  else .ACCEPTED

/-- Claim C4 counterexample: a response containing both error literals.
The claim's rule ("protocol-error literal and no command-error literal →
PROTOCOL_ERROR; otherwise command-error literal → COMMAND_ERROR") demands
COMMAND_ERROR here, but the code checks "Preamble Error" first and yields
PROTOCOL_ERROR. -/
theorem classify_both_literals_counterexample :
    str2bytes "Preamble Error CMD Error" ≠ [] ∧
    containsSeq PREAMBLE_ERROR_LIT
      (stripBytes (str2bytes "Preamble Error CMD Error")) = true ∧
    containsSeq CMD_ERROR_LIT
      (stripBytes (str2bytes "Preamble Error CMD Error")) = true ∧
    classifyClaimC4 (str2bytes "Preamble Error CMD Error") = .COMMAND_ERROR ∧
    classify (str2bytes "Preamble Error CMD Error") = .PROTOCOL_ERROR ∧
    Classification.PROTOCOL_ERROR ≠ Classification.COMMAND_ERROR := by
  refine ⟨?_, ?_, ?_, ?_, ?_, ?_⟩ <;> decide

/-- Claim C4 (amended): the classifier is total and deterministic over all
byte sequences; the empty response is SILENCE; a non-empty response
containing a protocol-error literal (regardless of command-error literals)
is PROTOCOL_ERROR; otherwise a non-empty response containing a
command-error literal is COMMAND_ERROR; every other non-empty response is
ACCEPTED. -/
theorem classifier_totality (resp : List Nat) :
    (resp = [] → classify resp = .SILENCE) ∧
    (resp ≠ [] → containsSeq PREAMBLE_ERROR_LIT (stripBytes resp) = true →
       classify resp = .PROTOCOL_ERROR) ∧
    (resp ≠ [] → containsSeq PREAMBLE_ERROR_LIT (stripBytes resp) = false →
       containsSeq CMD_ERROR_LIT (stripBytes resp) = true →
       classify resp = .COMMAND_ERROR) ∧
    (resp ≠ [] → containsSeq PREAMBLE_ERROR_LIT (stripBytes resp) = false →
       containsSeq CMD_ERROR_LIT (stripBytes resp) = false →
       classify resp = .ACCEPTED) := by
  unfold classify
  refine ⟨fun h => by simp [h], fun h0 h1 => by simp [h0, h1],
    fun h0 h1 h2 => by simp [h0, h1, h2], fun h0 h1 h2 => by simp [h0, h1, h2]⟩

theorem classifier_totality_witness :
    classify [] = .SILENCE ∧
    classify (str2bytes "Preamble Error!") = .PROTOCOL_ERROR ∧
    classify (str2bytes "CMD Error") = .COMMAND_ERROR ∧
    classify (str2bytes "OK 42") = .ACCEPTED :=
  ⟨(classifier_totality []).1 rfl,
   (classifier_totality _).2.1 (by decide) (by decide),
   (classifier_totality _).2.2.1 (by decide) (by decide) (by decide),
   (classifier_totality _).2.2.2 (by decide) (by decide) (by decide)⟩

/-! ### Fuzz orchestrator (src/fuzzer/automated_suite.py `main` + `run_test`)

The channel is modelled as a response oracle `chan : Nat → List Nat` giving
the bytes read back after the n-th probe.  A module is its ordered list of
candidate payloads; the suite runs the modules in order, one probe per
candidate, and stops globally at the first successful `run_test`.  A frame
build that overflows (payload over 65535 bytes) propagates as `.error ()`,
modelling the uncaught Python `OverflowError`. -/

/-- One module: iterate candidates in order; each candidate builds a frame
for opcode 0x0D, writes it (the k-th write reads response `chan k`) and
stops on the first success.  Returns the winning (frame, response) pair and
the next global probe index. -/
def runModule (chan : Nat → List Nat) :
    Nat → List (List Nat) → Except Unit (Option (List Nat × List Nat) × Nat)
  | k, [] => .ok (none, k)
  | k, p :: rest =>
    match build_frame_suite 0x0D p with
    | none => .error ()
    | some f =>
      if run_test_success (chan k) then .ok (some (f, chan k), k + 1)
      else runModule chan (k + 1) rest

/-- The suite: run modules in fixed priority order, propagating the global
probe counter; return on the first module that reports success. -/
def runSuite (chan : Nat → List Nat) :
    Nat → List (List (List Nat)) → Except Unit (Option (List Nat × List Nat) × Nat)
  | k, [] => .ok (none, k)
  | k, m :: ms =>
    match runModule chan k m with
    | .error () => .error ()
    | .ok (some res, next) => .ok (some res, next)
    | .ok (none, next) => runSuite chan next ms

/-- Module 1 of automated_suite.py: payload lengths 2..16 at fixed content. -/
def module1 : List (List Nat) :=
  (List.range 15).map (fun i => [0x00, 0x41] ++ List.replicate i 0x00)

/-- Module 2: third byte sweeps 0..255. -/
def module2 : List (List Nat) := (List.range 256).map (fun i => [0x00, 0x41, i])

/-- Module 3: second byte sweeps the printable range 0x20..0x7E. -/
def module3 : List (List Nat) := (List.range' 0x20 95).map (fun i => [0x00, i, 0x01])

/-- Module 4: leading group byte sweeps 0..255. -/
def module4 : List (List Nat) := (List.range 256).map (fun i => [i, 0x41, 0x01])

/-- The fixed module order of automated_suite.py `main`. -/
def automatedSuite (chan : Nat → List Nat) :
    Except Unit (Option (List Nat × List Nat) × Nat) :=
  runSuite chan 0 [module1, module2, module3, module4]

theorem build_frame_suite_isSome (op : Nat) (payload : List Nat)
    (h : payload.length ≤ 65535) : ∃ f, build_frame_suite op payload = some f := by
  have hlen : payload.length < 65536 := Nat.lt_succ_of_le h
  by_cases hop : op = 0x0D <;>
    simp [build_frame_suite, hop, toBytes2, hlen]

theorem classify_not_accepted_success_false {r : List Nat}
    (h : classify r ≠ .ACCEPTED) : run_test_success r = false := by
  rw [← Bool.not_eq_true, run_test_success_iff_accepted]
  exact h

theorem runModule_exhaust (chan : Nat → List Nat) (m : List (List Nat)) :
    ∀ k, (∀ p ∈ m, p.length ≤ 65535) →
    (∀ j, j < m.length → classify (chan (k + j)) ≠ .ACCEPTED) →
    runModule chan k m = .ok (none, k + m.length) := by
  induction m with
  | nil => intro k _ _; simp [runModule]
  | cons p rest ih =>
    intro k hlen hfail
    obtain ⟨f, hf⟩ := build_frame_suite_isSome 0x0D p (hlen p (List.mem_cons_self p rest))
    have hrs : run_test_success (chan k) = false :=
      classify_not_accepted_success_false (by simpa using hfail 0 (by simp))
    have hrest : ∀ j, j < rest.length → classify (chan ((k + 1) + j)) ≠ .ACCEPTED := by
      intro j hj
      have h1 := hfail (j + 1) (by simp only [List.length_cons]; omega)
      simpa [Nat.add_assoc, Nat.add_comm 1 j] using h1
    have hih := ih (k + 1) (fun q hq => hlen q (List.mem_cons_of_mem p hq)) hrest
    simp only [runModule, hf, hrs, Bool.false_eq_true, if_false]
    rw [hih]
    simp only [List.length_cons, Except.ok.injEq, Prod.mk.injEq]
    exact ⟨trivial, by omega⟩

theorem runModule_accept (chan : Nat → List Nat) (m : List (List Nat)) :
    ∀ k j, j < m.length → (∀ p ∈ m.take (j + 1), p.length ≤ 65535) →
    (∀ i, i < j → classify (chan (k + i)) ≠ .ACCEPTED) →
    classify (chan (k + j)) = .ACCEPTED →
    ∃ f, build_frame_suite 0x0D (m.getD j []) = some f ∧
      runModule chan k m = .ok (some (f, chan (k + j)), k + j + 1) := by
  induction m with
  | nil => intro k j hj hlen hmin hacc; simp at hj
  | cons p rest ih =>
    intro k j hj hlen hmin hacc
    rcases Nat.eq_zero_or_pos j with rfl | hpos
    · obtain ⟨f, hf⟩ := build_frame_suite_isSome 0x0D p (hlen p (by simp))
      refine ⟨f, by simpa using hf, ?_⟩
      have hrs : run_test_success (chan k) = true := by
        rw [run_test_success_iff_accepted]
        simpa using hacc
      simp [runModule, hf, hrs]
    · obtain ⟨j2, rfl⟩ : ∃ j2, j = j2 + 1 := ⟨j - 1, by omega⟩
      obtain ⟨f0, hf0⟩ := build_frame_suite_isSome 0x0D p (hlen p (by simp))
      have hrs : run_test_success (chan k) = false :=
        classify_not_accepted_success_false (by simpa using hmin 0 (by omega))
      have hminr : ∀ i, i < j2 → classify (chan ((k + 1) + i)) ≠ .ACCEPTED := by
        intro i hi
        have h1 := hmin (i + 1) (by omega)
        simpa [Nat.add_assoc, Nat.add_comm 1 i] using h1
      have harith : k + (j2 + 1) = k + 1 + j2 := by omega
      have hacc2 : classify (chan ((k + 1) + j2)) = .ACCEPTED := by
        rw [← harith]; exact hacc
      have hlenr : ∀ q ∈ rest.take (j2 + 1), q.length ≤ 65535 := by
        intro q hq
        refine hlen q ?_
        rw [List.take_succ_cons]
        exact List.mem_cons_of_mem p hq
      obtain ⟨f, hf, hrun⟩ := ih (k + 1) j2
        (by simpa [List.length_cons] using hj) hlenr hminr hacc2
      refine ⟨f, by simpa using hf, ?_⟩
      simp only [runModule, hf0, hrs, Bool.false_eq_true, if_false]
      rw [hrun, harith]

theorem runSuite_exhaust (chan : Nat → List Nat) (ms : List (List (List Nat))) :
    ∀ k, (∀ p ∈ ms.flatten, p.length ≤ 65535) →
    (∀ j, j < ms.flatten.length → classify (chan (k + j)) ≠ .ACCEPTED) →
    runSuite chan k ms = .ok (none, k + ms.flatten.length) := by
  induction ms with
  | nil => intro k _ _; simp [runSuite]
  | cons m ms ih =>
    intro k hlen hfail
    have hm : runModule chan k m = .ok (none, k + m.length) := by
      refine runModule_exhaust chan m k ?_ ?_
      · intro p hp
        exact hlen p (by rw [List.flatten_cons]; exact List.mem_append_left _ hp)
      · intro j hj
        refine hfail j ?_
        rw [List.flatten_cons, List.length_append]
        omega
    have hrec : runSuite chan (k + m.length) ms = .ok (none, (k + m.length) + ms.flatten.length) := by
      refine ih (k + m.length) ?_ ?_
      · intro p hp
        exact hlen p (by rw [List.flatten_cons]; exact List.mem_append_right _ hp)
      · intro j hj
        have h1 := hfail (m.length + j) (by rw [List.flatten_cons, List.length_append]; omega)
        simpa [Nat.add_assoc] using h1
    simp only [runSuite, hm, hrec, List.flatten_cons, List.length_append]
    simp only [Except.ok.injEq, Prod.mk.injEq]
    exact ⟨trivial, by omega⟩

theorem runSuite_accept (chan : Nat → List Nat) (ms : List (List (List Nat))) :
    ∀ k n, n < ms.flatten.length →
    (∀ p ∈ ms.flatten.take (n + 1), p.length ≤ 65535) →
    (∀ i, i < n → classify (chan (k + i)) ≠ .ACCEPTED) →
    classify (chan (k + n)) = .ACCEPTED →
    ∃ f, build_frame_suite 0x0D (ms.flatten.getD n []) = some f ∧
      runSuite chan k ms = .ok (some (f, chan (k + n)), k + n + 1) := by
  induction ms with
  | nil => intro k n hn _ _ _; simp at hn
  | cons m ms ih =>
    intro k n hn hlen hmin hacc
    rcases Nat.lt_or_ge n m.length with hlt | hge
    · have hlen1 : ∀ p ∈ m.take (n + 1), p.length ≤ 65535 := by
        intro p hp
        refine hlen p ?_
        rw [List.flatten_cons, List.take_append_of_le_length (by omega)]
        exact hp
      obtain ⟨f, hf, hrun⟩ := runModule_accept chan m k n hlt hlen1 hmin hacc
      refine ⟨f, ?_, ?_⟩
      · rw [List.flatten_cons, List.getD_append _ _ _ _ hlt]
        exact hf
      · simp only [runSuite, hrun]
    · have hm : runModule chan k m = .ok (none, k + m.length) := by
        refine runModule_exhaust chan m k ?_ ?_
        · intro p hp
          refine hlen p ?_
          rw [List.flatten_cons, List.take_append_eq_append_take,
            List.take_of_length_le (by omega)]
          exact List.mem_append_left _ hp
        · intro j hj
          exact hmin j (by omega)
      have hn2 : n - m.length < ms.flatten.length := by
        rw [List.flatten_cons, List.length_append] at hn
        omega
      have hlen2 : ∀ p ∈ ms.flatten.take (n - m.length + 1), p.length ≤ 65535 := by
        intro p hp
        refine hlen p ?_
        rw [List.flatten_cons, List.take_append_eq_append_take,
          List.take_of_length_le (by omega)]
        refine List.mem_append_right _ ?_
        have : n + 1 - m.length = n - m.length + 1 := by omega
        rw [this]
        exact hp
      have hmin2 : ∀ i, i < n - m.length →
          classify (chan ((k + m.length) + i)) ≠ .ACCEPTED := by
        intro i hi
        have h1 := hmin (m.length + i) (by omega)
        simpa [Nat.add_assoc] using h1
      have hacc2 : classify (chan ((k + m.length) + (n - m.length))) = .ACCEPTED := by
        have : (k + m.length) + (n - m.length) = k + n := by omega
        rw [this]
        exact hacc
      obtain ⟨f, hf, hrun⟩ := ih (k + m.length) (n - m.length) hn2 hlen2 hmin2 hacc2
      refine ⟨f, ?_, ?_⟩
      · rw [List.flatten_cons, List.getD_append_right _ _ _ _ hge]
        exact hf
      · simp only [runSuite, hm, hrun]
        have h1 : (k + m.length) + (n - m.length) = k + n := by omega
        rw [h1]

/-- Claim C3: the orchestrator iterates its modules in fixed priority order
with one probe per candidate; on the first probe classified ACCEPTED it
terminates the whole orchestration and returns that (frame, response) pair,
having issued exactly n + 1 probes; if every module exhausts its candidates
without an ACCEPTED classification it returns no result after exactly one
probe per candidate.  In particular, for modules ordered [m1, m2, m3] with
four candidates in m1 and at least five in m2, an ACCEPTED response to the
9th probe (global index 8, the 5th probe of m2) makes the run return m2's
5th frame with that response after exactly 9 probes — independently of the
contents of module 3, which is never invoked. -/
theorem orchestrator_early_exit (chan : Nat → List Nat) :
    (∀ ms : List (List (List Nat)), (∀ p ∈ ms.flatten, p.length ≤ 65535) →
      (∀ j, j < ms.flatten.length → classify (chan j) ≠ .ACCEPTED) →
      runSuite chan 0 ms = .ok (none, ms.flatten.length))
    ∧ (∀ ms : List (List (List Nat)), ∀ n, n < ms.flatten.length →
      (∀ p ∈ ms.flatten, p.length ≤ 65535) →
      (∀ i, i < n → classify (chan i) ≠ .ACCEPTED) →
      classify (chan n) = .ACCEPTED →
      ∃ f, build_frame_suite 0x0D (ms.flatten.getD n []) = some f ∧
        runSuite chan 0 ms = .ok (some (f, chan n), n + 1))
    ∧ (∀ m1 m2 m3 m3' : List (List Nat), m1.length = 4 → 5 ≤ m2.length →
      (∀ p ∈ m1 ++ m2, p.length ≤ 65535) →
      (∀ i, i < 8 → classify (chan i) ≠ .ACCEPTED) →
      classify (chan 8) = .ACCEPTED →
      runSuite chan 0 [m1, m2, m3] = runSuite chan 0 [m1, m2, m3'] ∧
      ∃ f, build_frame_suite 0x0D (m2.getD 4 []) = some f ∧
        runSuite chan 0 [m1, m2, m3] = .ok (some (f, chan 8), 9)) := by
  refine ⟨?_, ?_, ?_⟩
  · intro ms hlen hfail
    simpa using runSuite_exhaust chan ms 0 hlen (by simpa using hfail)
  · intro ms n hn hlen hmin hacc
    have h := runSuite_accept chan ms 0 n hn
      (fun p hp => hlen p (List.mem_of_mem_take hp))
      (by simpa using hmin) (by simpa using hacc)
    simpa using h
  · intro m1 m2 m3 m3' h1 h2 hlen hmin hacc
    have key : ∀ mz : List (List Nat),
        ∃ f, build_frame_suite 0x0D (([m1, m2, mz].flatten).getD 8 []) = some f ∧
          runSuite chan 0 [m1, m2, mz] = .ok (some (f, chan 8), 9) := by
      intro mz
      have hn : 8 < ([m1, m2, mz].flatten).length := by
        simp [List.length_append]
        omega
      have hlen9 : ∀ p ∈ ([m1, m2, mz].flatten).take 9, p.length ≤ 65535 := by
        intro p hp
        refine hlen p ?_
        have hflat : [m1, m2, mz].flatten = m1 ++ (m2 ++ (mz ++ [])) := by
          simp [List.flatten_cons]
        rw [hflat, List.take_append_eq_append_take, List.take_of_length_le (by omega)] at hp
        rcases List.mem_append.mp hp with hp1 | hp2
        · exact List.mem_append_left _ hp1
        · rw [List.take_append_of_le_length (by omega)] at hp2
          exact List.mem_append_right _ (List.mem_of_mem_take hp2)
      have h := runSuite_accept chan [m1, m2, mz] 0 8 hn hlen9
        (by simpa using hmin) (by simpa using hacc)
      simpa using h
    obtain ⟨f, hf, hrun⟩ := key m3
    obtain ⟨f', hf', hrun'⟩ := key m3'
    have hgetD : ∀ mz : List (List Nat),
        ([m1, m2, mz].flatten).getD 8 [] = m2.getD 4 [] := by
      intro mz
      have hflat : [m1, m2, mz].flatten = m1 ++ (m2 ++ (mz ++ [])) := by
        simp [List.flatten_cons]
      rw [hflat, List.getD_append_right _ _ _ _ (by omega), h1]
      exact List.getD_append _ _ _ _ (by omega)
    rw [hgetD m3] at hf
    rw [hgetD m3'] at hf'
    have hff : f = f' := Option.some.inj (hf.symm.trans hf')
    constructor
    · rw [hrun, hrun', hff]
    · exact ⟨f, hf, hrun⟩

theorem orchestrator_early_exit_witness :
    runSuite (fun n => if n = 8 then str2bytes "OK" else []) 0 [[[0x07]]] =
      .ok (none, 1) ∧
    (runSuite (fun n => if n = 8 then str2bytes "OK" else []) 0
        [List.replicate 4 [0x00], List.replicate 5 [0x01], [[0x02]]] =
      runSuite (fun n => if n = 8 then str2bytes "OK" else []) 0
        [List.replicate 4 [0x00], List.replicate 5 [0x01], []] ∧
     ∃ f, build_frame_suite 0x0D ((List.replicate 5 [0x01]).getD 4 []) = some f ∧
       runSuite (fun n => if n = 8 then str2bytes "OK" else []) 0
          [List.replicate 4 [0x00], List.replicate 5 [0x01], [[0x02]]] =
        .ok (some (f, str2bytes "OK"), 9)) :=
  ⟨(orchestrator_early_exit (fun n => if n = 8 then str2bytes "OK" else [])).1
      [[[0x07]]] (by decide) (by decide),
   (orchestrator_early_exit (fun n => if n = 8 then str2bytes "OK" else [])).2.2
      (List.replicate 4 [0x00]) (List.replicate 5 [0x01]) [[0x02]] []
      (by decide) (by decide) (by decide) (by decide) (by decide)⟩

/-! ### Boot synchronization (src/fuzzer/automated_suite.py `boot_sync`)

The serial stream is a sequence of reads `reads : Nat → List Nat` (the
chunk returned by the i-th `sess.read()`, empty on timeout).  The two
wall-clock deadlines become fuel bounds `fuelP` (prompt wait) and `fuelR`
(ready wait).  `sys.exit(1)` is the `.error ()` outcome. -/

def PROMPT : List Nat := str2bytes "Please key 'y'"

def READY_MARKERS : List (List Nat) :=
  [str2bytes "Start ATE", str2bytes "Start ATE Test", str2bytes "eATE_INIT"]

/-- `any(m in buf for m in READY)`. -/
def anyReady (buf : List Nat) : Bool :=
  READY_MARKERS.any (fun m => containsSeq m buf)

inductive SessionState where
  | READY
  | DEGRADED
deriving DecidableEq

/-- Accumulation of reads `i, i+1, …, i+n-1`. -/
def accumFrom {α : Type} (f : Nat → List α) (i : Nat) : Nat → List α
  | 0 => []
  | n + 1 => f i ++ accumFrom f (i + 1) n

/-- First loop of `boot_sync`: `while PROMPT not in buf and time < deadline:
buf += read()`.  Returns the final buffer and the next read index. -/
def promptPhase (reads : Nat → List Nat) : Nat → Nat → List Nat → List Nat × Nat
  | 0, i, buf => (buf, i)
  | fuel + 1, i, buf =>
    if containsSeq PROMPT buf then (buf, i)
    else promptPhase reads fuel (i + 1) (buf ++ reads i)

/-- Second loop: `while time < deadline: buf += read(); if any marker: return`.
`true` means a ready marker was seen before the deadline. -/
def readyPhase (reads : Nat → List Nat) : Nat → Nat → List Nat → Bool
  | 0, _, _ => false
  | fuel + 1, i, buf =>
    let buf2 := buf ++ reads i
    if anyReady buf2 then true
    else readyPhase reads fuel (i + 1) buf2

/-- `boot_sync`: fatal (`.error ()`, i.e. `sys.exit(1)`) when the prompt
never appears; `READY` when a ready marker is seen after sending the mode
key; `DEGRADED` ("continuing anyway") when it is not. -/
def boot_sync (reads : Nat → List Nat) (fuelP fuelR : Nat) :
    Except Unit SessionState :=
  let r := promptPhase reads fuelP 0 []
  if containsSeq PROMPT r.1 then
    if readyPhase reads fuelR r.2 [] then .ok .READY else .ok .DEGRADED
  else .error ()

/-- `main`'s shape: run `boot_sync`, then fuzz; a fatal boot sync aborts the
session before any fuzzing. -/
def session (reads : Nat → List Nat) (fuelP fuelR : Nat)
    (fuzz : SessionState → Nat) : Except Unit Nat :=
  (boot_sync reads fuelP fuelR).bind (fun st => .ok (fuzz st))

theorem promptPhase_not_found (reads : Nat → List Nat) :
    ∀ fuel i buf, containsSeq PROMPT (buf ++ accumFrom reads i fuel) = false →
    promptPhase reads fuel i buf = (buf ++ accumFrom reads i fuel, i + fuel) := by
  intro fuel
  induction fuel with
  | zero => intro i buf h; simp [promptPhase, accumFrom]
  | succ fuel ih =>
    intro i buf h
    have hbuf : containsSeq PROMPT buf = false := by
      cases hb : containsSeq PROMPT buf with
      | false => rfl
      | true =>
        rw [containsSeq_append_left (accumFrom reads i (fuel + 1)) hb] at h
        simp at h
    rw [promptPhase, if_neg (by rw [hbuf]; exact Bool.false_ne_true)]
    have h2 : containsSeq PROMPT ((buf ++ reads i) ++ accumFrom reads (i + 1) fuel) = false := by
      rw [List.append_assoc]
      simpa [accumFrom] using h
    rw [ih (i + 1) (buf ++ reads i) h2]
    simp [accumFrom, List.append_assoc]
    omega

theorem readyPhase_not_found (reads : Nat → List Nat) :
    ∀ fuel i buf, anyReady (buf ++ accumFrom reads i fuel) = false →
    readyPhase reads fuel i buf = false := by
  intro fuel
  induction fuel with
  | zero => intro i buf h; simp [readyPhase]
  | succ fuel ih =>
    intro i buf h
    have hmono : anyReady (buf ++ reads i) = false := by
      cases h1 : anyReady (buf ++ reads i) with
      | false => rfl
      | true =>
        exfalso
        simp only [anyReady, List.any_eq_true] at h1
        obtain ⟨m, hm, hc⟩ := h1
        have h3 := containsSeq_append_left (accumFrom reads (i + 1) fuel) hc
        have h4 : anyReady (buf ++ accumFrom reads i (fuel + 1)) = true := by
          simp only [anyReady, List.any_eq_true]
          refine ⟨m, hm, ?_⟩
          simpa [accumFrom, List.append_assoc] using h3
        rw [h4] at h
        simp at h
    rw [readyPhase]
    simp only [hmono, Bool.false_eq_true, if_false]
    refine ih (i + 1) (buf ++ reads i) ?_
    rw [List.append_assoc]
    simpa [accumFrom] using h

/-- Claim C5: boot synchronization is asymmetric — if the prompt marker
never appears in the input accumulated within the prompt timeout, the whole
session aborts fatally and no fuzzing runs; if the prompt was seen but no
ready marker appears within the ready timeout, synchronization ends
DEGRADED, is not fatal, and the downstream fuzzing still runs. -/
theorem boot_sync_asymmetry (reads : Nat → List Nat) (fuelP fuelR : Nat)
    (fuzz : SessionState → Nat) :
    (containsSeq PROMPT (accumFrom reads 0 fuelP) = false →
      boot_sync reads fuelP fuelR = .error () ∧
      session reads fuelP fuelR fuzz = .error ())
    ∧ (∀ buf i, promptPhase reads fuelP 0 [] = (buf, i) →
      containsSeq PROMPT buf = true →
      anyReady (accumFrom reads i fuelR) = false →
      boot_sync reads fuelP fuelR = .ok .DEGRADED ∧
      session reads fuelP fuelR fuzz = .ok (fuzz .DEGRADED)) := by
  constructor
  · intro h
    have hp := promptPhase_not_found reads fuelP 0 []
      (by simpa using h)
    have hb : boot_sync reads fuelP fuelR = .error () := by
      unfold boot_sync
      rw [hp]
      simp only []
      rw [if_neg ?_]
      intro hc
      rw [show ([] : List Nat) ++ accumFrom reads 0 fuelP = accumFrom reads 0 fuelP
          from List.nil_append _, h] at hc
      exact Bool.false_ne_true hc
    exact ⟨hb, by unfold session; rw [hb]; rfl⟩
  · intro buf i hp hfound hnoready
    have hr : readyPhase reads fuelR i [] = false :=
      readyPhase_not_found reads fuelR i [] (by simpa using hnoready)
    have hb : boot_sync reads fuelP fuelR = .ok .DEGRADED := by
      unfold boot_sync
      rw [hp]
      simp only [hfound, if_true, hr, Bool.false_eq_true, if_false]
    exact ⟨hb, by unfold session; rw [hb]; rfl⟩

theorem boot_sync_asymmetry_witness :
    (boot_sync (fun _ => []) 3 3 = .error () ∧
     session (fun _ => []) 3 3 (fun _ => 7) = .error ())
    ∧ (boot_sync (fun n => if n = 0 then str2bytes "Please key 'y'" else []) 2 2 =
        .ok .DEGRADED ∧
       session (fun n => if n = 0 then str2bytes "Please key 'y'" else []) 2 2
         (fun _ => 7) = .ok 7) :=
  ⟨(boot_sync_asymmetry (fun _ => []) 3 3 (fun _ => 7)).1 (by decide),
   (boot_sync_asymmetry (fun n => if n = 0 then str2bytes "Please key 'y'" else [])
      2 2 (fun _ => 7)).2 (str2bytes "Please key 'y'") 1 (by decide) (by decide)
      (by decide)⟩

/-! ### Register scanner (src/fuzzer/master_analyzer.py `scan_and_save`)

The device side is a chunk oracle `dev : Nat → Nat → List Char`
(`dev a t` = text decoded from the t-th read while scanning address `a`;
empty models a read timeout).  The per-address 1-second deadline becomes a
fuel bound on the number of reads.  The regex
`Addr:0x([0-9a-fA-F]+),\s*Data:(0x[0-9a-fA-F]+)` (IGNORECASE) is embedded
directly: the two greedy `+` groups are maximal-munch runs, which is exact
here because each run is followed by a character outside its class. -/

/-- ASCII lower-casing, as used by a case-insensitive regex literal. -/
def lowerChar (c : Char) : Char :=
  if 'A' ≤ c ∧ c ≤ 'Z' then Char.ofNat (c.toNat + 32) else c

/-- Case-insensitive literal match: `pat` (given lowercase) against the
head of `s`. -/
def ciPrefix : List Char → List Char → Bool
  | [], _ => true
  | _ :: _, [] => false
  | p :: ps, c :: cs => (lowerChar c = p) && ciPrefix ps cs

/-- The regex class `[0-9a-fA-F]`. -/
def isHexDigitChar (c : Char) : Bool :=
  ('0' ≤ c && c ≤ '9') || ('a' ≤ c && c ≤ 'f') || ('A' ≤ c && c ≤ 'F')

/-- The regex class `\s` (ASCII whitespace). -/
def isSpaceChar (c : Char) : Bool :=
  c = ' ' || c = '\t' || c = '\n' || c = '\r' || c = '\x0b' || c = '\x0c'

/-- Try to match `Addr:0x([0-9a-fA-F]+),\s*Data:(0x[0-9a-fA-F]+)` at the
head of `s`, returning group 2 (the `0x<value>` text, original casing). -/
def matchAt (s : List Char) : Option (List Char) :=
  if ciPrefix "addr:0x".data s then
    let r1 := s.drop 7
    let d1 := r1.takeWhile isHexDigitChar
    let r2 := r1.dropWhile isHexDigitChar
    if d1.isEmpty then none
    else
      match r2 with
      | ',' :: r3 =>
        let r4 := r3.dropWhile isSpaceChar
        if ciPrefix "data:".data r4 then
          match r4.drop 5 with
          | '0' :: cx :: r5 =>
            if cx = 'x' || cx = 'X' then
              let d2 := r5.takeWhile isHexDigitChar
              if d2.isEmpty then none else some ('0' :: cx :: d2)
            else none
          | _ => none
        else none
      | _ => none
  else none

/-- `re.search`: leftmost match of the pattern, returning group 2. -/
def searchPattern : List Char → Option (List Char)
  | [] => none
  | c :: rest =>
    match matchAt (c :: rest) with
    | some v => some v
    | none => searchPattern rest

def NO_RESPONSE_STR : List Char := "NO_RESPONSE".data

/-- Lowercase hex digit of a nibble, as produced by Python `"%02x"`. -/
def hexDigitChar (n : Nat) : Char :=
  if n < 10 then Char.ofNat (48 + n) else Char.ofNat (87 + n)

/-- The read command `f"00{addr:02x}00\r"` (addr < 256). -/
def readCommand (a : Nat) : List Char :=
  '0' :: '0' :: hexDigitChar (a / 16) :: hexDigitChar (a % 16) ::
    '0' :: '0' :: '\r' :: []

/-- The result key `f"0x{addr:02x}"` (addr < 256). -/
def regKeyChars (a : Nat) : List Char :=
  '0' :: 'x' :: hexDigitChar (a / 16) :: hexDigitChar (a % 16) :: []

/-- The per-address read loop: accumulate chunks until the pattern matches
(then record group 2) or the deadline (fuel) expires (then NO_RESPONSE).
Empty chunks (read timeouts) are skipped, as in `if data_bytes:`. -/
def scanLoop (ch : Nat → List Char) : Nat → Nat → List Char → List Char
  | 0, _, _ => NO_RESPONSE_STR
  | fuel + 1, i, buf =>
    match ch i with
    | [] => scanLoop ch fuel (i + 1) buf
    | c :: cs =>
      let buf2 := buf ++ (c :: cs)
      match searchPattern buf2 with
      | some v => v
      | none => scanLoop ch fuel (i + 1) buf2

/-- `scan_and_save`: visit addresses 0..255 in ascending order; for each,
write the read command and record the scan value under the canonical key.
Each entry is (address, command written, map key, recorded value). -/
def scan_and_save (dev : Nat → Nat → List Char) (fuel : Nat) :
    List (Nat × List Char × List Char × List Char) :=
  (List.range 256).map
    (fun a => (a, readCommand a, regKeyChars a, scanLoop (dev a) fuel 0 []))

theorem scanLoop_no_match (ch : Nat → List Char) :
    ∀ fuel i buf,
    (∀ t, t ≤ fuel → searchPattern (buf ++ accumFrom ch i t) = none) →
    scanLoop ch fuel i buf = NO_RESPONSE_STR := by
  intro fuel
  induction fuel with
  | zero => intro i buf _; rfl
  | succ fuel ih =>
    intro i buf h
    cases hch : ch i with
    | nil =>
      rw [scanLoop, hch]
      refine ih (i + 1) buf ?_
      intro t ht
      have h1 := h (t + 1) (by omega)
      simpa [accumFrom, hch] using h1
    | cons c cs =>
      have hs : searchPattern (buf ++ (c :: cs)) = none := by
        have h1 := h 1 (by omega)
        simpa [accumFrom, hch] using h1
      rw [scanLoop, hch]
      simp only [hs]
      refine ih (i + 1) (buf ++ (c :: cs)) ?_
      intro t ht
      have h1 := h (t + 1) (by omega)
      simpa [accumFrom, hch, List.append_assoc] using h1

theorem scanLoop_first_match (ch : Nat → List Char) :
    ∀ fuel i buf t v, searchPattern buf = none → t ≤ fuel →
    searchPattern (buf ++ accumFrom ch i t) = some v →
    (∀ u, u < t → searchPattern (buf ++ accumFrom ch i u) = none) →
    scanLoop ch fuel i buf = v := by
  intro fuel
  induction fuel with
  | zero =>
    intro i buf t v hbuf ht hsome _
    obtain rfl : t = 0 := Nat.le_zero.mp ht
    rw [show accumFrom ch i 0 = [] from rfl, List.append_nil, hbuf] at hsome
    exact Option.noConfusion hsome
  | succ fuel ih =>
    intro i buf t v hbuf ht hsome hmin
    rcases Nat.eq_zero_or_pos t with rfl | hpos
    · rw [show accumFrom ch i 0 = [] from rfl, List.append_nil, hbuf] at hsome
      exact Option.noConfusion hsome
    obtain ⟨t2, rfl⟩ : ∃ t2, t = t2 + 1 := ⟨t - 1, by omega⟩
    cases hch : ch i with
    | nil =>
      rw [scanLoop, hch]
      refine ih (i + 1) buf t2 v hbuf (by omega) ?_ ?_
      · have h1 : accumFrom ch i (t2 + 1) = accumFrom ch (i + 1) t2 := by
          simp [accumFrom, hch]
        rwa [h1] at hsome
      · intro u hu
        have h1 := hmin (u + 1) (by omega)
        simpa [accumFrom, hch] using h1
    | cons c cs =>
      rw [scanLoop, hch]
      cases hs : searchPattern (buf ++ (c :: cs)) with
      | some w =>
        have ht2 : t2 = 0 := by
          by_contra hne
          have h1 := hmin 1 (by omega)
          rw [show accumFrom ch i 1 = ch i ++ [] from rfl, hch, List.append_nil] at h1
          rw [h1] at hs
          exact Option.noConfusion hs
        subst ht2
        have h2 : searchPattern (buf ++ (c :: cs)) = some v := by
          have h3 : accumFrom ch i 1 = c :: cs := by simp [accumFrom, hch]
          rwa [h3] at hsome
        rw [hs] at h2
        simp only [hs]
        exact Option.some.inj h2
      | none =>
        simp only [hs]
        refine ih (i + 1) (buf ++ (c :: cs)) t2 v hs (by omega) ?_ ?_
        · have h1 : (buf ++ (c :: cs)) ++ accumFrom ch (i + 1) t2 =
              buf ++ accumFrom ch i (t2 + 1) := by
            simp [accumFrom, hch, List.append_assoc]
          rwa [h1]
        · intro u hu
          have h1 := hmin (u + 1) (by omega)
          have h2 : (buf ++ (c :: cs)) ++ accumFrom ch (i + 1) u =
              buf ++ accumFrom ch i (u + 1) := by
            simp [accumFrom, hch, List.append_assoc]
          rwa [h2]

/-- Claim C6: the register scanner visits every address 0x00..0xff exactly
once in ascending order; for each address it writes
`"00" + addr(2 lowercase hex) + "00" + CR` and records, under the key
`"0x" + addr(2 lowercase hex)`, either group 2 of the first match of the
case-insensitive pattern `Addr:0x<hex>, Data:0x<hex>` in the accumulated
reply, or NO_RESPONSE when no match appears within the per-address
deadline; the resulting map has exactly 256 entries. -/
theorem register_scan (dev : Nat → Nat → List Char) (fuel : Nat) :
    (scan_and_save dev fuel).length = 256
    ∧ (scan_and_save dev fuel).map (fun e => e.1) = List.range 256
    ∧ (∀ a, a < 256 →
        (a, '0' :: '0' :: hexDigitChar (a / 16) :: hexDigitChar (a % 16) ::
            '0' :: '0' :: '\r' :: [],
         '0' :: 'x' :: hexDigitChar (a / 16) :: hexDigitChar (a % 16) :: [],
         scanLoop (dev a) fuel 0 []) ∈ scan_and_save dev fuel)
    ∧ (∀ a, a < 256 →
        (∀ t, t ≤ fuel → searchPattern (accumFrom (dev a) 0 t) = none) →
        scanLoop (dev a) fuel 0 [] = NO_RESPONSE_STR)
    ∧ (∀ a t v, a < 256 → t ≤ fuel →
        searchPattern (accumFrom (dev a) 0 t) = some v →
        (∀ u, u < t → searchPattern (accumFrom (dev a) 0 u) = none) →
        scanLoop (dev a) fuel 0 [] = v) := by
  refine ⟨?_, ?_, ?_, ?_, ?_⟩
  · simp [scan_and_save]
  · simp [scan_and_save, List.map_map]
    exact List.map_id _
  · intro a ha
    exact List.mem_map.mpr ⟨a, List.mem_range.mpr ha, rfl⟩
  · intro a _ h
    refine scanLoop_no_match (dev a) fuel 0 [] ?_
    intro t ht
    simpa using h t ht
  · intro a t v _ ht hsome hmin
    refine scanLoop_first_match (dev a) fuel 0 [] t v rfl ht ?_ ?_
    · simpa using hsome
    · intro u hu
      simpa using hmin u hu

theorem register_scan_witness :
    ((5, '0' :: '0' :: hexDigitChar (5 / 16) :: hexDigitChar (5 % 16) ::
        '0' :: '0' :: '\r' :: [],
      '0' :: 'x' :: hexDigitChar (5 / 16) :: hexDigitChar (5 % 16) :: [],
      scanLoop ((fun a t => if a = 5 ∧ t = 0 then "Addr:0x05, Data:0x1A".data
          else []) 5) 1 0 []) ∈
        scan_and_save (fun a t => if a = 5 ∧ t = 0 then "Addr:0x05, Data:0x1A".data
          else []) 1)
    ∧ scanLoop ((fun a t => if a = 5 ∧ t = 0 then "Addr:0x05, Data:0x1A".data
        else []) 0) 1 0 [] = NO_RESPONSE_STR
    ∧ scanLoop ((fun a t => if a = 5 ∧ t = 0 then "Addr:0x05, Data:0x1A".data
        else []) 5) 1 0 [] = "0x1A".data :=
  ⟨(register_scan (fun a t => if a = 5 ∧ t = 0 then "Addr:0x05, Data:0x1A".data
      else []) 1).2.2.1 5 (by norm_num),
   (register_scan (fun a t => if a = 5 ∧ t = 0 then "Addr:0x05, Data:0x1A".data
      else []) 1).2.2.2.1 0 (by norm_num) (by decide),
   (register_scan (fun a t => if a = 5 ∧ t = 0 then "Addr:0x05, Data:0x1A".data
      else []) 1).2.2.2.2 5 1 ("0x1A".data) (by norm_num) (by norm_num)
      (by decide) (by decide)⟩

/-! ### Offline diff analysis (src/fuzzer/master_analyzer.py
`analyze_day_night`, `final_analysis`)

A persisted register map is a JSON object: an association list of
(key, value) string pairs.  Python `dict.get(k, d)` is `mapGet`. -/

/-- A RegisterMap snapshot as loaded from JSON. -/
abbrev RegMap : Type := List (String × String)

/-- Python `m.get(k, d)`. -/
def mapGet (m : RegMap) (k d : String) : String :=
  match List.find? (fun p => p.1 == k) m with
  | some p => p.2
  | none => d

/-- The canonical address key `f"0x{i:02x}"` (for `i < 256`). -/
def key2 (a : Nat) : String := String.mk (regKeyChars a)

/-- The loop body of `analyze_day_night` over a list of addresses,
collecting (static, dynamic) entries in visit order. -/
def dn_loop (day night : RegMap) :
    List Nat → List (String × String) × List (String × String × String)
  | [] => ([], [])
  | i :: rest =>
    let addr := key2 i
    let dv := mapGet day addr "N/A"
    let nv := mapGet night addr "N/A"
    let acc := dn_loop day night rest
    if dv ≠ "NO_RESPONSE" ∨ nv ≠ "NO_RESPONSE" then
      if dv = nv then ((addr, dv) :: acc.1, acc.2)
      else (acc.1, (addr, dv, nv) :: acc.2)
    else acc

/-- `analyze_day_night`: iterate the fixed address range 0x00..0xff. -/
def analyze_day_night (day night : RegMap) :
    List (String × String) × List (String × String × String) :=
  dn_loop day night (List.range 256)

/-- `final_analysis`: iterate the baseline's items and report every
(address, baseline value, tweaked value) whose values differ. -/
def final_analysis (day tweaked : RegMap) : List (String × String × String) :=
  day.filterMap (fun p =>
    let tv := mapGet tweaked p.1 "N/A"
    if p.2 ≠ tv then some (p.1, p.2, tv) else none)

theorem dn_loop_not_mem (day night : RegMap) (k : String)
    (hd : mapGet day k "N/A" = "NO_RESPONSE")
    (hn : mapGet night k "N/A" = "NO_RESPONSE") :
    ∀ l : List Nat, (∀ v, (k, v) ∉ (dn_loop day night l).1) ∧
      (∀ x y, (k, x, y) ∉ (dn_loop day night l).2) := by
  intro l
  induction l with
  | nil => simp [dn_loop]
  | cons i rest ih =>
    by_cases hki : key2 i = k
    · subst hki
      simp only [dn_loop]
      rw [if_neg (by simp [hd, hn])]
      exact ih
    · simp only [dn_loop]
      constructor
      · intro v hv
        split at hv
        · split at hv
          · rcases List.mem_cons.mp hv with h1 | h1
            · exact hki ((Prod.mk.injEq _ _ _ _).mp h1).1.symm
            · exact ih.1 v h1
          · exact ih.1 v hv
        · exact ih.1 v hv
      · intro x y hv
        split at hv
        · split at hv
          · exact ih.2 x y hv
          · rcases List.mem_cons.mp hv with h1 | h1
            · exact hki ((Prod.mk.injEq _ _ _ _).mp h1).1.symm
            · exact ih.2 x y h1
        · exact ih.2 x y hv

theorem dn_loop_static_mem_of (day night : RegMap) (a : Nat) :
    ∀ l : List Nat, a ∈ l →
    (mapGet day (key2 a) "N/A" ≠ "NO_RESPONSE" ∨
      mapGet night (key2 a) "N/A" ≠ "NO_RESPONSE") →
    mapGet day (key2 a) "N/A" = mapGet night (key2 a) "N/A" →
    (key2 a, mapGet day (key2 a) "N/A") ∈ (dn_loop day night l).1 := by
  intro l
  induction l with
  | nil => intro h; simp at h
  | cons i rest ih =>
    intro hmem hcond heq
    rcases List.mem_cons.mp hmem with rfl | hrest
    · simp only [dn_loop]
      rw [if_pos hcond, if_pos heq]
      exact List.mem_cons_self _ _
    · have hin := ih hrest hcond heq
      simp only [dn_loop]
      split
      · split
        · exact List.mem_cons_of_mem _ hin
        · exact hin
      · exact hin

theorem dn_loop_dynamic_mem_of (day night : RegMap) (a : Nat) :
    ∀ l : List Nat, a ∈ l →
    (mapGet day (key2 a) "N/A" ≠ "NO_RESPONSE" ∨
      mapGet night (key2 a) "N/A" ≠ "NO_RESPONSE") →
    mapGet day (key2 a) "N/A" ≠ mapGet night (key2 a) "N/A" →
    (key2 a, mapGet day (key2 a) "N/A", mapGet night (key2 a) "N/A") ∈
      (dn_loop day night l).2 := by
  intro l
  induction l with
  | nil => intro h; simp at h
  | cons i rest ih =>
    intro hmem hcond hne
    rcases List.mem_cons.mp hmem with rfl | hrest
    · simp only [dn_loop]
      rw [if_pos hcond, if_neg hne]
      exact List.mem_cons_self _ _
    · have hin := ih hrest hcond hne
      simp only [dn_loop]
      split
      · split
        · exact hin
        · exact List.mem_cons_of_mem _ hin
      · exact hin

theorem dn_loop_static_mem_inv (day night : RegMap) :
    ∀ (l : List Nat) (k v : String), (k, v) ∈ (dn_loop day night l).1 →
    ∃ i, i ∈ l ∧ k = key2 i ∧
      (mapGet day k "N/A" ≠ "NO_RESPONSE" ∨ mapGet night k "N/A" ≠ "NO_RESPONSE") ∧
      mapGet day k "N/A" = mapGet night k "N/A" ∧ v = mapGet day k "N/A" := by
  intro l
  induction l with
  | nil => intro k v h; simp [dn_loop] at h
  | cons i rest ih =>
    intro k v h
    simp only [dn_loop] at h
    by_cases hcond : mapGet day (key2 i) "N/A" ≠ "NO_RESPONSE" ∨
        mapGet night (key2 i) "N/A" ≠ "NO_RESPONSE"
    · rw [if_pos hcond] at h
      by_cases heq : mapGet day (key2 i) "N/A" = mapGet night (key2 i) "N/A"
      · rw [if_pos heq] at h
        rcases List.mem_cons.mp h with h1 | h1
        · obtain ⟨hk, hv⟩ := (Prod.mk.injEq _ _ _ _).mp h1
          subst hk
          exact ⟨i, List.mem_cons_self _ _, rfl, hcond, heq, hv⟩
        · obtain ⟨j, hj, rest2⟩ := ih k v h1
          exact ⟨j, List.mem_cons_of_mem _ hj, rest2⟩
      · rw [if_neg heq] at h
        obtain ⟨j, hj, rest2⟩ := ih k v h
        exact ⟨j, List.mem_cons_of_mem _ hj, rest2⟩
    · rw [if_neg hcond] at h
      obtain ⟨j, hj, rest2⟩ := ih k v h
      exact ⟨j, List.mem_cons_of_mem _ hj, rest2⟩

theorem dn_loop_dynamic_mem_inv (day night : RegMap) :
    ∀ (l : List Nat) (k x y : String), (k, x, y) ∈ (dn_loop day night l).2 →
    ∃ i, i ∈ l ∧ k = key2 i ∧
      (mapGet day k "N/A" ≠ "NO_RESPONSE" ∨ mapGet night k "N/A" ≠ "NO_RESPONSE") ∧
      mapGet day k "N/A" ≠ mapGet night k "N/A" ∧
      x = mapGet day k "N/A" ∧ y = mapGet night k "N/A" := by
  intro l
  induction l with
  | nil => intro k x y h; simp [dn_loop] at h
  | cons i rest ih =>
    intro k x y h
    simp only [dn_loop] at h
    by_cases hcond : mapGet day (key2 i) "N/A" ≠ "NO_RESPONSE" ∨
        mapGet night (key2 i) "N/A" ≠ "NO_RESPONSE"
    · rw [if_pos hcond] at h
      by_cases heq : mapGet day (key2 i) "N/A" = mapGet night (key2 i) "N/A"
      · rw [if_pos heq] at h
        obtain ⟨j, hj, rest2⟩ := ih k x y h
        exact ⟨j, List.mem_cons_of_mem _ hj, rest2⟩
      · rw [if_neg heq] at h
        rcases List.mem_cons.mp h with h1 | h1
        · obtain ⟨hk, hxy⟩ := (Prod.mk.injEq _ _ _ _).mp h1
          obtain ⟨hx, hy⟩ := (Prod.mk.injEq _ _ _ _).mp hxy
          subst hk
          exact ⟨i, List.mem_cons_self _ _, rfl, hcond, heq, hx, hy⟩
        · obtain ⟨j, hj, rest2⟩ := ih k x y h1
          exact ⟨j, List.mem_cons_of_mem _ hj, rest2⟩
    · rw [if_neg hcond] at h
      obtain ⟨j, hj, rest2⟩ := ih k x y h
      exact ⟨j, List.mem_cons_of_mem _ hj, rest2⟩

theorem dn_loop_self_dynamic_nil (M : RegMap) :
    ∀ l : List Nat, (dn_loop M M l).2 = [] := by
  intro l
  induction l with
  | nil => rfl
  | cons i rest ih =>
    simp only [dn_loop]
    split
    · simpa using ih
    · exact ih

/-- Claim C7: the day/night diff partitions each address of the fixed
range: both values NO_RESPONSE → excluded from both buckets; NO_RESPONSE in
exactly one map → DYNAMIC; equal values, not both NO_RESPONSE → STATIC;
both readable but different → DYNAMIC.  Diffing a map against itself gives
an empty DYNAMIC set and a STATIC set that is exactly the readable
(non-NO_RESPONSE) addresses. -/
theorem day_night_partition (day night : RegMap) :
    (∀ a, a < 256 →
      (mapGet day (key2 a) "N/A" = "NO_RESPONSE" →
        mapGet night (key2 a) "N/A" = "NO_RESPONSE" →
        (∀ v, (key2 a, v) ∉ (analyze_day_night day night).1) ∧
        (∀ x y, (key2 a, x, y) ∉ (analyze_day_night day night).2))
      ∧ ((mapGet day (key2 a) "N/A" = "NO_RESPONSE" ∧
            mapGet night (key2 a) "N/A" ≠ "NO_RESPONSE") ∨
         (mapGet day (key2 a) "N/A" ≠ "NO_RESPONSE" ∧
            mapGet night (key2 a) "N/A" = "NO_RESPONSE") →
        (key2 a, mapGet day (key2 a) "N/A", mapGet night (key2 a) "N/A") ∈
          (analyze_day_night day night).2)
      ∧ (mapGet day (key2 a) "N/A" = mapGet night (key2 a) "N/A" →
        ¬(mapGet day (key2 a) "N/A" = "NO_RESPONSE" ∧
            mapGet night (key2 a) "N/A" = "NO_RESPONSE") →
        (key2 a, mapGet day (key2 a) "N/A") ∈ (analyze_day_night day night).1)
      ∧ (mapGet day (key2 a) "N/A" ≠ "NO_RESPONSE" →
        mapGet night (key2 a) "N/A" ≠ "NO_RESPONSE" →
        mapGet day (key2 a) "N/A" ≠ mapGet night (key2 a) "N/A" →
        (key2 a, mapGet day (key2 a) "N/A", mapGet night (key2 a) "N/A") ∈
          (analyze_day_night day night).2))
    ∧ (analyze_day_night day day).2 = []
    ∧ (∀ a, a < 256 →
      ((key2 a, mapGet day (key2 a) "N/A") ∈ (analyze_day_night day day).1 ↔
        mapGet day (key2 a) "N/A" ≠ "NO_RESPONSE"))
    ∧ (∀ k v, (k, v) ∈ (analyze_day_night day day).1 →
      ∃ a, a < 256 ∧ k = key2 a ∧ v = mapGet day k "N/A" ∧ v ≠ "NO_RESPONSE") := by
  refine ⟨?_, ?_, ?_, ?_⟩
  · intro a ha
    refine ⟨?_, ?_, ?_, ?_⟩
    · intro hd hn
      exact dn_loop_not_mem day night (key2 a) hd hn (List.range 256)
    · intro hone
      refine dn_loop_dynamic_mem_of day night a (List.range 256)
        (List.mem_range.mpr ha) ?_ ?_
      · rcases hone with ⟨_, h2⟩ | ⟨h1, _⟩
        · exact Or.inr h2
        · exact Or.inl h1
      · rcases hone with ⟨h1, h2⟩ | ⟨h1, h2⟩
        · intro he; exact h2 (he ▸ h1)
        · intro he; exact h1 (he.trans h2)
    · intro heq hnotboth
      refine dn_loop_static_mem_of day night a (List.range 256)
        (List.mem_range.mpr ha) ?_ heq
      by_cases h1 : mapGet day (key2 a) "N/A" = "NO_RESPONSE"
      · refine Or.inr (fun h2 => hnotboth ⟨h1, h2⟩)
      · exact Or.inl h1
    · intro h1 h2 hne
      exact dn_loop_dynamic_mem_of day night a (List.range 256)
        (List.mem_range.mpr ha) (Or.inl h1) hne
  · exact dn_loop_self_dynamic_nil day (List.range 256)
  · intro a ha
    constructor
    · intro hmem
      obtain ⟨i, _, _, hcond, _, hv⟩ :=
        dn_loop_static_mem_inv day day (List.range 256) (key2 a)
          (mapGet day (key2 a) "N/A") hmem
      rcases hcond with h1 | h1
      · exact h1
      · exact h1
    · intro hne
      exact dn_loop_static_mem_of day day a (List.range 256)
        (List.mem_range.mpr ha) (Or.inl hne) rfl
  · intro k v hmem
    obtain ⟨i, hi, hk, hcond, _, hv⟩ :=
      dn_loop_static_mem_inv day day (List.range 256) k v hmem
    refine ⟨i, List.mem_range.mp hi, hk, hv, ?_⟩
    rcases hcond with h1 | h1 <;> rw [hv] <;> exact h1

theorem day_night_partition_witness :
    ((∀ v, (key2 1, v) ∉
        (analyze_day_night [("0x00", "0x11"), ("0x01", "NO_RESPONSE")]
          [("0x00", "0x22"), ("0x01", "NO_RESPONSE")]).1) ∧
      (∀ x y, (key2 1, x, y) ∉
        (analyze_day_night [("0x00", "0x11"), ("0x01", "NO_RESPONSE")]
          [("0x00", "0x22"), ("0x01", "NO_RESPONSE")]).2))
    ∧ (key2 0,
        mapGet [("0x00", "0x11"), ("0x01", "NO_RESPONSE")] (key2 0) "N/A",
        mapGet [("0x00", "0x22"), ("0x01", "NO_RESPONSE")] (key2 0) "N/A") ∈
        (analyze_day_night [("0x00", "0x11"), ("0x01", "NO_RESPONSE")]
          [("0x00", "0x22"), ("0x01", "NO_RESPONSE")]).2
    ∧ (analyze_day_night [("0x00", "0x11"), ("0x01", "NO_RESPONSE")]
        [("0x00", "0x11"), ("0x01", "NO_RESPONSE")]).2 = []
    ∧ ((key2 0, mapGet [("0x00", "0x11"), ("0x01", "NO_RESPONSE")] (key2 0) "N/A") ∈
        (analyze_day_night [("0x00", "0x11"), ("0x01", "NO_RESPONSE")]
          [("0x00", "0x11"), ("0x01", "NO_RESPONSE")]).1 ↔
        mapGet [("0x00", "0x11"), ("0x01", "NO_RESPONSE")] (key2 0) "N/A" ≠
          "NO_RESPONSE") :=
  ⟨((day_night_partition [("0x00", "0x11"), ("0x01", "NO_RESPONSE")]
      [("0x00", "0x22"), ("0x01", "NO_RESPONSE")]).1 1 (by norm_num)).1
      (by decide) (by decide),
   ((day_night_partition [("0x00", "0x11"), ("0x01", "NO_RESPONSE")]
      [("0x00", "0x22"), ("0x01", "NO_RESPONSE")]).1 0 (by norm_num)).2.2.2
      (by decide) (by decide) (by decide),
   (day_night_partition [("0x00", "0x11"), ("0x01", "NO_RESPONSE")]
      [("0x00", "0x22"), ("0x01", "NO_RESPONSE")]).2.1,
   (day_night_partition [("0x00", "0x11"), ("0x01", "NO_RESPONSE")]
      [("0x00", "0x22"), ("0x01", "NO_RESPONSE")]).2.2.1 0 (by norm_num)⟩

/-- Claim C8: the tweak diff reports exactly the baseline entries whose
value differs from the tweaked map's value (with the (old, new) pair), and
reports nothing when the maps agree; on the spec's concrete scenario it
reports exactly the single change at 0x01. -/
theorem tweak_diff (day tweaked : RegMap) :
    (∀ k o n, (k, o, n) ∈ final_analysis day tweaked ↔
      ((k, o) ∈ day ∧ n = mapGet tweaked k "N/A" ∧ o ≠ n))
    ∧ ((∀ p ∈ day, mapGet tweaked p.1 "N/A" = p.2) →
        final_analysis day tweaked = [])
    ∧ final_analysis [("0x00", "0x01"), ("0x01", "0x02")]
        [("0x00", "0x01"), ("0x01", "0x05")] = [("0x01", "0x02", "0x05")] := by
  refine ⟨?_, ?_, ?_⟩
  · intro k o n
    constructor
    · intro h
      obtain ⟨p, hp, hfp⟩ := List.mem_filterMap.mp h
      by_cases hne : p.2 ≠ mapGet tweaked p.1 "N/A"
      · rw [if_pos hne] at hfp
        simp only [Option.some.injEq, Prod.mk.injEq] at hfp
        obtain ⟨h1, h2, h3⟩ := hfp
        subst h1; subst h2; subst h3
        exact ⟨by simpa using hp, rfl, hne⟩
      · rw [if_neg hne] at hfp
        exact Option.noConfusion hfp
    · rintro ⟨hmem, rfl, hne⟩
      refine List.mem_filterMap.mpr ⟨(k, o), hmem, ?_⟩
      rw [if_pos hne]
  · intro hagree
    refine List.filterMap_eq_nil_iff.mpr ?_
    intro p hp
    rw [if_neg ?_]
    rw [hagree p hp]
    exact fun hc => hc rfl
  · rfl

theorem tweak_diff_witness :
    final_analysis [("0x00", "0x01"), ("0x01", "0x02")]
      [("0x00", "0x01"), ("0x01", "0x02")] = [] ∧
    (("0x01", "0x02", "0x05") ∈
      final_analysis [("0x00", "0x01"), ("0x01", "0x02")]
        [("0x00", "0x01"), ("0x01", "0x05")] ↔
      (("0x01", "0x02") ∈ ([("0x00", "0x01"), ("0x01", "0x02")] : RegMap) ∧
        "0x05" = mapGet [("0x00", "0x01"), ("0x01", "0x05")] "0x01" "N/A" ∧
        "0x02" ≠ "0x05")) :=
  ⟨(tweak_diff [("0x00", "0x01"), ("0x01", "0x02")]
      [("0x00", "0x01"), ("0x01", "0x02")]).2.1 (by decide),
   (tweak_diff [("0x00", "0x01"), ("0x01", "0x02")]
      [("0x00", "0x01"), ("0x01", "0x05")]).1 "0x01" "0x02" "0x05"⟩

/-- Claim C10: the day/night diff iterates exactly the fixed addresses
0x00..0xff whatever keys the inputs hold; a missing key reads as the
placeholder "N/A", which differs from NO_RESPONSE, so an address absent
from both maps lands in the STATIC bucket with value "N/A" rather than
being excluded. -/
theorem day_night_missing_keys (day night : RegMap) :
    (∀ k v, (k, v) ∈ (analyze_day_night day night).1 →
      ∃ a, a < 256 ∧ k = key2 a)
    ∧ (∀ k x y, (k, x, y) ∈ (analyze_day_night day night).2 →
      ∃ a, a < 256 ∧ k = key2 a)
    ∧ (∀ k, List.find? (fun p => p.1 == k) day = none →
        mapGet day k "N/A" = "N/A")
    ∧ ("N/A" : String) ≠ "NO_RESPONSE"
    ∧ (∀ a, a < 256 →
        List.find? (fun p => p.1 == key2 a) day = none →
        List.find? (fun p => p.1 == key2 a) night = none →
        (key2 a, "N/A") ∈ (analyze_day_night day night).1) := by
  refine ⟨?_, ?_, ?_, by decide, ?_⟩
  · intro k v h
    obtain ⟨i, hi, hk, -⟩ := dn_loop_static_mem_inv day night (List.range 256) k v h
    exact ⟨i, List.mem_range.mp hi, hk⟩
  · intro k x y h
    obtain ⟨i, hi, hk, -⟩ := dn_loop_dynamic_mem_inv day night (List.range 256) k x y h
    exact ⟨i, List.mem_range.mp hi, hk⟩
  · intro k hfind
    unfold mapGet
    rw [hfind]
  · intro a ha hd hn
    have hdv : mapGet day (key2 a) "N/A" = "N/A" := by unfold mapGet; rw [hd]
    have hnv : mapGet night (key2 a) "N/A" = "N/A" := by unfold mapGet; rw [hn]
    have h := dn_loop_static_mem_of day night a (List.range 256)
      (List.mem_range.mpr ha) (Or.inl (by rw [hdv]; decide)) (by rw [hdv, hnv])
    rwa [hdv] at h

theorem day_night_missing_keys_witness :
    mapGet [("zzz", "0x01")] "0x03" "N/A" = "N/A" ∧
    (key2 3, "N/A") ∈ (analyze_day_night [("zzz", "0x01")] []).1 :=
  ⟨(day_night_missing_keys [("zzz", "0x01")] []).2.2.1 "0x03" (by decide),
   (day_night_missing_keys [("zzz", "0x01")] []).2.2.2.2 3 (by norm_num)
     (by decide) (by decide)⟩

end MBP481
